import Mathlib

/-!
Shallow embedding of the io_uring file layer in `src/util/uring/uring_file.cc`.

The completion engine is modelled as an oracle: a list of signed integer
completion results that `FiberCall` consumes in order.  Every modelled
function returns, besides the value the C++ function returns, the oracle
that remains after its completions were consumed and the list of kernel
operations it submitted.  Error codes are plain integers (the `ec.value()`
of a `std::error_code` over `system_category`), with `0` meaning success.
-/

namespace Helio

/-- Kernel operations submitted through the engine (plus the synchronous
`close(2)` calls that `OpenRead` makes directly, tagged `sysClose`). -/
inductive UringOp where
  | close (fd : Int)
  | readv (fd : Int) (iovcnt : Nat) (offset : Int)
  | writev (fd : Int) (iovcnt : Nat) (offset : Int)
  | read (fd : Int) (len : Nat) (offset : Int)
  | openAt (path : String)
  | fadvise (fd : Int)
  | sysClose (fd : Int)
deriving Repr, DecidableEq

/-- The sequence of signed completion results the engine delivers, consumed
in submission order. -/
abbrev Oracle := List Int

instance {ε α : Type} [DecidableEq ε] [DecidableEq α] : DecidableEq (Except ε α) := fun x y =>
  match x, y with
  | Except.ok a, Except.ok b =>
    if h : a = b then isTrue (by rw [h]) else isFalse (by simp [h])
  | Except.error a, Except.error b =>
    if h : a = b then isTrue (by rw [h]) else isFalse (by simp [h])
  | Except.ok _, Except.error _ => isFalse (by simp)
  | Except.error _, Except.ok _ => isFalse (by simp)

/-- Outcome of running a modelled function against an oracle: the value the
C++ function returns together with the unconsumed oracle suffix and the ops
submitted; or a fatal `CHECK` failure (process abort) with the ops submitted
before it; or `hung` when the oracle has no completion left to deliver; or
`ub` when the source would read past the end of the iovec array. -/
inductive Res (α : Type) where
  | ok (val : α) (rest : List Int) (ops : List UringOp)
  | fatal (ops : List UringOp)
  | hung
  | ub
deriving Repr, DecidableEq

/-- True when the outcome is a returned `io::Result` holding an error
(first component of a pair). -/
def Res.isErrorPair {α β : Type} : Res (Except Int α × β) → Bool
  | Res.ok (Except.error _, _) _ _ => true
  | _ => false

/-- True when the outcome is a returned `io::Result` holding an error. -/
def Res.isError {α : Type} : Res (Except Int α) → Bool
  | Res.ok (Except.error _) _ _ => true
  | _ => false

/-- Model of `CloseFile` (uring_file.cc:112-122): submit a close only when
`fd > 0`; negative completion becomes error code `-io_res`; otherwise, and
for `fd ≤ 0` without any submission, return the empty (success) error code. -/
def CloseFile (fd : Int) (oracle : Oracle) : Res Int :=
  if fd > 0 then
    match oracle with
    | [] => Res.hung
    | r :: rest =>
      if r < 0 then Res.ok (-r) rest [UringOp.close fd]
      else Res.ok 0 rest [UringOp.close fd]
  else Res.ok 0 oracle []

/-- Model of `WriteSomeInternal` (uring_file.cc:124-136): `CHECK_GE(fd, 0)`,
`CHECK_GT(iovcnt, 0)`, then one `PrepWriteV` completion: negative result maps
to error `-io_res`, non-negative to that byte count. -/
def WriteSomeInternal (fd : Int) (iovcnt : Nat) (offset : Int) (oracle : Oracle) :
    Res (Except Int Nat) :=
  if fd < 0 then Res.fatal []
  else if iovcnt = 0 then Res.fatal []
  else
    match oracle with
    | [] => Res.hung
    | r :: rest =>
      if r < 0 then Res.ok (Except.error (-r)) rest [UringOp.writev fd iovcnt offset]
      else Res.ok (Except.ok r.toNat) rest [UringOp.writev fd iovcnt offset]

/-- Model of `ReadSomeInternal` (uring_file.cc:138-150): same contract as
`WriteSomeInternal` with `PrepReadV`. -/
def ReadSomeInternal (fd : Int) (iovcnt : Nat) (offset : Int) (oracle : Oracle) :
    Res (Except Int Nat) :=
  if fd < 0 then Res.fatal []
  else if iovcnt = 0 then Res.fatal []
  else
    match oracle with
    | [] => Res.hung
    | r :: rest =>
      if r < 0 then Res.ok (Except.error (-r)) rest [UringOp.readv fd iovcnt offset]
      else Res.ok (Except.ok r.toNat) rest [UringOp.readv fd iovcnt offset]

/-- Loop body of `ReadAll` (uring_file.cc:152-178) with its `read_total`
accumulator made explicit.  Each iteration submits `PrepRead(fd, next, len,
offset)` — note the source passes the original `len`, not the remaining
count — then: negative result is an error, zero result returns the bytes
accumulated so far, and otherwise the loop exits exactly when the
accumulated total equals `len`, else continues at `offset + io_res`. -/
def ReadAllLoop (fd offset : Int) (len readTotal : Nat) :
    Oracle → List UringOp → Res (Except Int Nat)
  | [], _ => Res.hung
  | r :: rest, ops =>
    if r < 0 then Res.ok (Except.error (-r)) rest (ops ++ [UringOp.read fd len offset])
    else if r.toNat = 0 then
      Res.ok (Except.ok readTotal) rest (ops ++ [UringOp.read fd len offset])
    else if readTotal + r.toNat = len then
      Res.ok (Except.ok (readTotal + r.toNat)) rest (ops ++ [UringOp.read fd len offset])
    else
      ReadAllLoop fd (offset + r) len (readTotal + r.toNat) rest
        (ops ++ [UringOp.read fd len offset])

/-- Model of `ReadAll` (uring_file.cc:152-178): the loop starting with
`read_total = 0`. -/
def ReadAll (fd offset : Int) (len : Nat) (oracle : Oracle) (ops : List UringOp) :
    Res (Except Int Nat) :=
  ReadAllLoop fd offset len 0 oracle ops

/-- Model of the entry-skipping loop in `ReadFileImpl::Read`
(uring_file.cc:210-214): `while (len && v->iov_len <= read)` drops fully
consumed entries and subtracts their lengths from `read`. -/
def skipEntries : List Nat → Nat → List Nat × Nat
  | [], read => ([], read)
  | e :: es, read => if e ≤ read then skipEntries es (read - e) else (e :: es, read)

/-- Loop of `ReadFileImpl::Read` (uring_file.cc:196-237).  `entries` is the
list of remaining iovec lengths; `fuel` bounds the number of outer
iterations (the wrapper passes the oracle length, which suffices because
every iteration consumes at least one completion).  Each iteration is a call
to `ReadSomeInternal` over the remaining entries at `offset + read_total`,
so it first runs that primitive's fatal `CHECK_GE(fd, 0)` and
`CHECK_GT(iovcnt, 0)` preconditions, then submits the vectored read; a zero
completion returns `read_total`; a completion ending inside an entry runs
`ReadAll` over the remainder of that entry and returns early when `ReadAll`
transferred fewer bytes than that remainder. -/
def ReadLoop (fd offset : Int) :
    Nat → List Nat → Nat → Oracle → List UringOp → Res (Except Int Nat)
  | _, _, _, [], _ => Res.hung
  | 0, _, _, _ :: _, _ => Res.hung
  | fuel + 1, entries, readTotal, r :: rest, ops =>
    if fd < 0 then Res.fatal ops
    else if entries.length = 0 then Res.fatal ops
    else
      let ops1 := ops ++ [UringOp.readv fd entries.length (offset + (readTotal : Int))]
      if r < 0 then Res.ok (Except.error (-r)) rest ops1
      else if r.toNat = 0 then Res.ok (Except.ok readTotal) rest ops1
      else
        let readTotal1 := readTotal + r.toNat
        let entries1 := (skipEntries entries r.toNat).1
        let read1 := (skipEntries entries r.toNat).2
        if 0 < read1 then
          match entries1 with
          | [] => Res.ub
          | e :: entriesRest =>
            match ReadAll fd (offset + (readTotal1 : Int)) (e - read1) rest ops1 with
            | Res.ok (Except.error ec) rest2 ops2 => Res.ok (Except.error ec) rest2 ops2
            | Res.ok (Except.ok res2) rest2 ops2 =>
              if res2 < e - read1 then Res.ok (Except.ok (readTotal1 + res2)) rest2 ops2
              else if entriesRest.length = 0 then
                Res.ok (Except.ok (readTotal1 + res2)) rest2 ops2
              else ReadLoop fd offset fuel entriesRest (readTotal1 + res2) rest2 ops2
            | Res.fatal ops2 => Res.fatal ops2
            | Res.hung => Res.hung
            | Res.ub => Res.ub
        else
          if entries1.length = 0 then Res.ok (Except.ok readTotal1) rest ops1
          else ReadLoop fd offset fuel entries1 readTotal1 rest ops1

/-- State of `ReadFileImpl` (uring_file.cc:33-57): descriptor and the
`const size_t file_size_` captured at construction. -/
structure ReadFileImpl where
  fd : Int
  file_size : Nat
deriving Repr, DecidableEq

/-- Model of `ReadFileImpl::Size` (uring_file.cc:45-47). -/
def ReadFileImpl.Size (f : ReadFileImpl) : Nat :=
  f.file_size

/-- Model of `ReadFileImpl::Read` (uring_file.cc:190-238): an empty iovec
list returns 0 at once; otherwise run the exact-transfer loop.  The method
mutates no member, so the abstraction state is returned unchanged. -/
def ReadFileImpl.Read (f : ReadFileImpl) (offset : Int) (entries : List Nat)
    (oracle : Oracle) : Res (Except Int Nat × ReadFileImpl) :=
  if entries.length = 0 then Res.ok (Except.ok 0, f) oracle []
  else
    match ReadLoop f.fd offset oracle.length entries 0 oracle [] with
    | Res.ok x rest ops => Res.ok (x, f) rest ops
    | Res.fatal ops => Res.fatal ops
    | Res.hung => Res.hung
    | Res.ub => Res.ub

/-- Model of `ReadFileImpl::Close` (uring_file.cc:184-188): delegate to
`CloseFile`, then store the sentinel `-1` in `fd_`. -/
def ReadFileImpl.Close (f : ReadFileImpl) (oracle : Oracle) :
    Res (Int × ReadFileImpl) :=
  match CloseFile f.fd oracle with
  | Res.ok ec rest ops => Res.ok (ec, { f with fd := -1 }) rest ops
  | Res.fatal ops => Res.fatal ops
  | Res.hung => Res.hung
  | Res.ub => Res.ub

/-- Model of `ReadFileImpl::~ReadFileImpl` (uring_file.cc:180-182): a
best-effort `CloseFile` on the stored descriptor, error discarded. -/
def ReadFileImpl.destructor (f : ReadFileImpl) (oracle : Oracle) : Res Int :=
  CloseFile f.fd oracle

/-- State of `WriteFileImpl` (uring_file.cc:59-76): target path, descriptor
initialized to `-1`, and the write cursor `offs_` initialized to `0`. -/
structure WriteFileImpl where
  create_file_name : String
  fd : Int := -1
  offs : Int := 0
deriving Repr, DecidableEq

/-- Model of `WriteFileImpl::Open` (uring_file.cc:244-257): `CHECK_EQ(fd_,
-1)` aborts when already open; otherwise one `PrepOpenAt` completion, a
negative result mapping to error `-io_res` and a non-negative one being
stored as the new descriptor. -/
def WriteFileImpl.Open (w : WriteFileImpl) (oracle : Oracle) :
    Res (Int × WriteFileImpl) :=
  if w.fd = -1 then
    match oracle with
    | [] => Res.hung
    | r :: rest =>
      if r < 0 then Res.ok (-r, w) rest [UringOp.openAt w.create_file_name]
      else Res.ok (0, { w with fd := r }) rest [UringOp.openAt w.create_file_name]
  else Res.fatal []

/-- Model of `WriteFileImpl::Close` (uring_file.cc:259-263). -/
def WriteFileImpl.Close (w : WriteFileImpl) (oracle : Oracle) :
    Res (Int × WriteFileImpl) :=
  match CloseFile w.fd oracle with
  | Res.ok ec rest ops => Res.ok (ec, { w with fd := -1 }) rest ops
  | Res.fatal ops => Res.fatal ops
  | Res.hung => Res.hung
  | Res.ub => Res.ub

/-- Model of `WriteFileImpl::WriteSome` (uring_file.cc:265-271): call
`WriteSomeInternal` at the current cursor `offs_` and advance the cursor by
the returned byte count only on success. -/
def WriteFileImpl.WriteSome (w : WriteFileImpl) (iovcnt : Nat) (oracle : Oracle) :
    Res (Except Int Nat × WriteFileImpl) :=
  match WriteSomeInternal w.fd iovcnt w.offs oracle with
  | Res.ok (Except.ok n) rest ops =>
    Res.ok (Except.ok n, { w with offs := w.offs + (n : Int) }) rest ops
  | Res.ok (Except.error e) rest ops => Res.ok (Except.error e, w) rest ops
  | Res.fatal ops => Res.fatal ops
  | Res.hung => Res.hung
  | Res.ub => Res.ub

/-- State of `LinuxFileImpl` (uring_file.cc:78-99): just the descriptor. -/
structure LinuxFileImpl where
  fd : Int
deriving Repr, DecidableEq

/-- Model of `LinuxFileImpl::Close` (uring_file.cc:290-294). -/
def LinuxFileImpl.Close (l : LinuxFileImpl) (oracle : Oracle) :
    Res (Int × LinuxFileImpl) :=
  match CloseFile l.fd oracle with
  | Res.ok ec rest ops => Res.ok (ec, { l with fd := -1 }) rest ops
  | Res.fatal ops => Res.fatal ops
  | Res.hung => Res.hung
  | Res.ub => Res.ub

/-- Model of `OpenRead` (uring_file.cc:318-357).  `statRes` is the outcome
of the local synchronous `fstat` (error value = the `errno` it sets; success
value = `st_size`).  `ambientErrno` is the value the thread-local `errno`
happens to hold when the fadvise completion is examined — the source reads
`errno` there even though the failure was delivered as a negative engine
result.  Secondary `close(fd)` calls on the cleanup paths are logged as
`sysClose` and their own errors are discarded. -/
def OpenRead (path : String) (statRes : Except Int Nat) (ambientErrno : Int) :
    Oracle → Res (Except Int ReadFileImpl)
  | [] => Res.hung
  | r :: rest =>
    if r < 0 then Res.ok (Except.error (-r)) rest [UringOp.openAt path]
    else
      match statRes with
      | Except.error e =>
        Res.ok (Except.error e) rest [UringOp.openAt path, UringOp.sysClose r]
      | Except.ok sz =>
        match rest with
        | [] => Res.hung
        | r2 :: rest2 =>
          if r2 < 0 then
            Res.ok (Except.error ambientErrno) rest2
              [UringOp.openAt path, UringOp.fadvise r, UringOp.sysClose r]
          else
            Res.ok (Except.ok { fd := r, file_size := sz }) rest2
              [UringOp.openAt path, UringOp.fadvise r]

/-- Iterates `WriteFileImpl.WriteSome`, one engine completion per call,
stopping with `none` on any non-success outcome. -/
def iterWriteSome (iovcnt : Nat) : WriteFileImpl → List Int → Option WriteFileImpl
  | w, [] => some w
  | w, r :: rs =>
    match w.WriteSome iovcnt [r] with
    | Res.ok (Except.ok _, w') _ _ => iterWriteSome iovcnt w' rs
    | _ => none

end Helio

namespace Helio

/-- Sanity check of the model against the spec's end-to-end scenario B: a
3-entry buffer list of lengths [4, 4, 4] driven by 3-byte completions (kept
per-call legal by the entry-retry requests) transfers all 12 bytes. -/
theorem read_scenario_b :
    ReadFileImpl.Read ⟨3, 12⟩ 0 [4, 4, 4] [3, 1, 3, 1, 3, 1] =
      Res.ok (Except.ok 12, ⟨3, 12⟩) []
        [UringOp.readv 3 3 0, UringOp.read 3 1 3, UringOp.readv 3 2 4, UringOp.read 3 1 7,
         UringOp.readv 3 1 8, UringOp.read 3 1 11] := by decide

/-- C1: the exact-transfer read is NOT complete in the claimed sense.  On the
single 4-byte buffer entry at offset 0, the completion sequence 2 (vectored
read over 4 requested bytes), then 1 and 2 for the entry-retry reads (each of
which requests `len = 2` bytes, the original remainder, even after part of it
was already filled), then 0, makes `ReadFileImpl::Read` return 5 — more than
the total buffer length L = 4 — because `ReadAll` keeps requesting the stale
`len` and only stops on `read_total == len` exactly.  Every completion in the
sequence is at most the byte count its own request asked for, yet the driver
both over-counts and overruns the entry. -/
theorem read_exact_transfer_overcount :
    ReadFileImpl.Read ⟨3, 100⟩ 0 [4] [2, 1, 2, 0] =
      Res.ok (Except.ok 5, ⟨3, 100⟩) []
        [UringOp.readv 3 1 0, UringOp.read 3 2 2, UringOp.read 3 2 3, UringOp.read 3 2 5] ∧
    5 > List.sum [4] := by decide

/-- C6: on the advisory-failure cleanup path, `OpenRead` does close the
descriptor and discards the close error, but the error it returns is built
from the thread-local `errno` (here 0) instead of the negation 22 of the
engine's completion result -22, contradicting the negated-errno convention
the spec states. -/
theorem openRead_fadvise_errno :
    OpenRead "f" (Except.ok 10) 0 [3, -22] =
      Res.ok (Except.error 0) []
        [UringOp.openAt "f", UringOp.fadvise 3, UringOp.sysClose 3] ∧
    (0 : Int) ≠ -(-22 : Int) := by decide

/-- C5: the positional primitives map a negative engine completion `r` to an
error with code `-r` and a non-negative one to a success carrying `r` bytes,
each submitting exactly one vectored operation at the given offset. -/
theorem some_internal_error_mapping (fd : Int) (iovcnt : Nat) (offset r : Int)
    (rest : Oracle) (hfd : 0 ≤ fd) (hcnt : 0 < iovcnt) :
    ReadSomeInternal fd iovcnt offset (r :: rest) =
      (if r < 0 then Res.ok (Except.error (-r)) rest [UringOp.readv fd iovcnt offset]
       else Res.ok (Except.ok r.toNat) rest [UringOp.readv fd iovcnt offset]) ∧
    WriteSomeInternal fd iovcnt offset (r :: rest) =
      (if r < 0 then Res.ok (Except.error (-r)) rest [UringOp.writev fd iovcnt offset]
       else Res.ok (Except.ok r.toNat) rest [UringOp.writev fd iovcnt offset]) := by
  have h1 : ¬ fd < 0 := not_lt.mpr hfd
  have h2 : ¬ iovcnt = 0 := by omega
  constructor <;> by_cases hr : r < 0 <;>
    simp [ReadSomeInternal, WriteSomeInternal, h1, h2, hr]

theorem some_internal_error_mapping_witness :
    ReadSomeInternal 3 1 0 [-2] = Res.ok (Except.error 2) [] [UringOp.readv 3 1 0] ∧
    WriteSomeInternal 3 1 0 [-2] = Res.ok (Except.error 2) [] [UringOp.writev 3 1 0] := by
  simpa using some_internal_error_mapping 3 1 0 (-2) [] (by decide) (by decide)

/-- C8: `WriteFileImpl::Open` on an abstraction that already holds a
descriptor aborts on its `CHECK_EQ(fd_, -1)` precondition without submitting
a second open operation, so the held descriptor is neither replaced nor
leaked by a successful second open. -/
theorem write_open_twice_fatal (w : WriteFileImpl) (oracle : Oracle) (h : w.fd ≠ -1) :
    w.Open oracle = Res.fatal [] := by
  simp [WriteFileImpl.Open, h]

theorem write_open_twice_fatal_witness :
    WriteFileImpl.Open ⟨"f", 3, 0⟩ [4] = Res.fatal [] :=
  write_open_twice_fatal ⟨"f", 3, 0⟩ [4] (by decide)

/-- C9: `ReadFileImpl::Read` with an empty iovec list returns success with 0
bytes at any offset, consuming no completion and submitting nothing, while
the positional primitive would hit its fatal `CHECK_GT(iovcnt, 0)` on the
same input. -/
theorem read_empty_iovec_ok (f : ReadFileImpl) (offset : Int) (oracle : Oracle)
    (hfd : 0 ≤ f.fd) :
    f.Read offset [] oracle = Res.ok (Except.ok 0, f) oracle [] ∧
    ReadSomeInternal f.fd 0 offset oracle = Res.fatal [] := by
  have h1 : ¬ f.fd < 0 := not_lt.mpr hfd
  exact ⟨by simp [ReadFileImpl.Read], by simp [ReadSomeInternal, h1]⟩

theorem read_empty_iovec_ok_witness :
    ReadFileImpl.Read ⟨3, 10⟩ 7 [] [5] = Res.ok (Except.ok 0, ⟨3, 10⟩) [5] [] ∧
    ReadSomeInternal 3 0 7 [5] = Res.fatal [] := by
  simpa using read_empty_iovec_ok ⟨3, 10⟩ 7 [5] (by decide)

/-- C10: `CloseFile` submits a kernel close only for `fd > 0`: every
descriptor value ≤ 0 — including the valid descriptor number 0 — returns
success at once with no operation, so a `ReadFileImpl` holding descriptor 0
is closed neither by its destructor nor by `Close` (which still stores the
sentinel). -/
theorem closeFile_nonpositive_noop (fd : Int) (o1 o2 o3 : Oracle) (f : ReadFileImpl)
    (hfd : fd ≤ 0) (hf : f.fd = 0) :
    CloseFile fd o1 = Res.ok 0 o1 [] ∧
    f.destructor o2 = Res.ok 0 o2 [] ∧
    f.Close o3 = Res.ok (0, { f with fd := -1 }) o3 [] := by
  have h1 : ¬ fd > 0 := not_lt.mpr hfd
  have h2 : ¬ f.fd > 0 := by omega
  refine ⟨by simp [CloseFile, h1], by simp [ReadFileImpl.destructor, CloseFile, h2], ?_⟩
  simp [ReadFileImpl.Close, CloseFile, h2]

theorem closeFile_nonpositive_noop_witness :
    CloseFile 0 [9] = Res.ok 0 [9] [] ∧
    ReadFileImpl.destructor ⟨0, 7⟩ [9] = Res.ok 0 [9] [] ∧
    ReadFileImpl.Close ⟨0, 7⟩ [9] = Res.ok (0, ⟨-1, 7⟩) [9] [] := by
  simpa using closeFile_nonpositive_noop 0 [9] [9] [9] ⟨0, 7⟩ (by decide) (by decide)

end Helio

namespace Helio

/-- After any returning `ReadFileImpl::Close`, the stored descriptor is the
sentinel `-1`. -/
theorem ReadFileImpl_close_sets_sentinel (f : ReadFileImpl) (o : Oracle) (ec : Int)
    (f' : ReadFileImpl) (rest : Oracle) (ops : List UringOp)
    (h : f.Close o = Res.ok (ec, f') rest ops) : f' = { f with fd := -1 } := by
  unfold ReadFileImpl.Close at h
  cases hcf : CloseFile f.fd o <;> rw [hcf] at h <;> simp_all

/-- After any returning `WriteFileImpl::Close`, the stored descriptor is the
sentinel `-1`. -/
theorem WriteFileImpl_close_sets_sentinel (w : WriteFileImpl) (o : Oracle) (ec : Int)
    (w' : WriteFileImpl) (rest : Oracle) (ops : List UringOp)
    (h : w.Close o = Res.ok (ec, w') rest ops) : w' = { w with fd := -1 } := by
  unfold WriteFileImpl.Close at h
  cases hcf : CloseFile w.fd o <;> rw [hcf] at h <;> simp_all

/-- After any returning `LinuxFileImpl::Close`, the stored descriptor is the
sentinel `-1`. -/
theorem LinuxFileImpl_close_sets_sentinel (l : LinuxFileImpl) (o : Oracle) (ec : Int)
    (l' : LinuxFileImpl) (rest : Oracle) (ops : List UringOp)
    (h : l.Close o = Res.ok (ec, l') rest ops) : l' = { l with fd := -1 } := by
  unfold LinuxFileImpl.Close at h
  cases hcf : CloseFile l.fd o <;> rw [hcf] at h <;> simp_all

/-- C4: close is idempotent.  `CloseFile` on the sentinel value returns
success and submits nothing, and after a first `Close` returned on any of the
three file abstractions, a second `Close` returns success, submits no kernel
close, and leaves the state unchanged. -/
theorem close_idempotent (o0 o1 o1' o2 o2' o3 o3' : Oracle)
    (f : ReadFileImpl) (w : WriteFileImpl) (l : LinuxFileImpl)
    (ec1 ec2 ec3 : Int) (f' : ReadFileImpl) (w' : WriteFileImpl) (l' : LinuxFileImpl)
    (r1 r2 r3 : Oracle) (p1 p2 p3 : List UringOp)
    (h1 : f.Close o1 = Res.ok (ec1, f') r1 p1)
    (h2 : w.Close o2 = Res.ok (ec2, w') r2 p2)
    (h3 : l.Close o3 = Res.ok (ec3, l') r3 p3) :
    CloseFile (-1) o0 = Res.ok 0 o0 [] ∧
    f'.Close o1' = Res.ok (0, f') o1' [] ∧
    w'.Close o2' = Res.ok (0, w') o2' [] ∧
    l'.Close o3' = Res.ok (0, l') o3' [] := by
  have hf := ReadFileImpl_close_sets_sentinel f o1 ec1 f' r1 p1 h1
  have hw := WriteFileImpl_close_sets_sentinel w o2 ec2 w' r2 p2 h2
  have hl := LinuxFileImpl_close_sets_sentinel l o3 ec3 l' r3 p3 h3
  subst hf hw hl
  refine ⟨by simp [CloseFile], ?_, ?_, ?_⟩ <;>
    simp [ReadFileImpl.Close, WriteFileImpl.Close, LinuxFileImpl.Close, CloseFile]

theorem close_idempotent_witness :
    CloseFile (-1) [8] = Res.ok 0 [8] [] ∧
    ReadFileImpl.Close ⟨-1, 10⟩ [8] = Res.ok (0, ⟨-1, 10⟩) [8] [] ∧
    WriteFileImpl.Close ⟨"f", -1, 4⟩ [8] = Res.ok (0, ⟨"f", -1, 4⟩) [8] [] ∧
    LinuxFileImpl.Close ⟨-1⟩ [8] = Res.ok (0, ⟨-1⟩) [8] [] := by
  simpa using close_idempotent [8] [0] [8] [0] [8] [0] [8]
    ⟨3, 10⟩ ⟨"f", 3, 4⟩ ⟨3⟩ 0 0 0 ⟨-1, 10⟩ ⟨"f", -1, 4⟩ ⟨-1⟩ [] [] [] [UringOp.close 3]
    [UringOp.close 3] [UringOp.close 3] (by decide) (by decide) (by decide)

end Helio

namespace Helio

/-- One `WriteSome` call on a valid descriptor: an error completion leaves
the abstraction (in particular the cursor `offs_`) unchanged; a success
advances the cursor by exactly the completed byte count; either way the
single submitted write targets the current cursor. -/
theorem writeSome_step (w : WriteFileImpl) (iovcnt : Nat) (r : Int) (rest : Oracle)
    (hfd : 0 ≤ w.fd) (hcnt : 0 < iovcnt) :
    w.WriteSome iovcnt (r :: rest) =
      if r < 0 then
        Res.ok (Except.error (-r), w) rest [UringOp.writev w.fd iovcnt w.offs]
      else
        Res.ok (Except.ok r.toNat, { w with offs := w.offs + (r.toNat : Int) }) rest
          [UringOp.writev w.fd iovcnt w.offs] := by
  have h1 : ¬ w.fd < 0 := not_lt.mpr hfd
  have h2 : ¬ iovcnt = 0 := by omega
  by_cases hr : r < 0 <;> simp [WriteFileImpl.WriteSome, WriteSomeInternal, h1, h2, hr]

/-- C3: write-cursor correctness.  After the successful `WriteSome` calls
with byte counts `bs`, the cursor equals its initial value plus the sum of
the counts; and a further `WriteSome` at that state submits its write at
offset = that cursor, advancing it only on success and leaving it unchanged
on an error completion. -/
theorem write_cursor_sum (iovcnt : Nat) (w : WriteFileImpl) (bs : List Nat)
    (hfd : 0 ≤ w.fd) (hcnt : 0 < iovcnt) :
    iterWriteSome iovcnt w (bs.map Int.ofNat) =
      some { w with offs := w.offs + (bs.sum : Int) } ∧
    ∀ r rest,
      WriteFileImpl.WriteSome { w with offs := w.offs + (bs.sum : Int) } iovcnt (r :: rest) =
        if r < 0 then
          Res.ok (Except.error (-r), { w with offs := w.offs + (bs.sum : Int) }) rest
            [UringOp.writev w.fd iovcnt (w.offs + (bs.sum : Int))]
        else
          Res.ok (Except.ok r.toNat,
              { w with offs := w.offs + (bs.sum : Int) + (r.toNat : Int) }) rest
            [UringOp.writev w.fd iovcnt (w.offs + (bs.sum : Int))] := by
  constructor
  · induction bs generalizing w with
    | nil => simp [iterWriteSome]
    | cons b bs ih =>
      rw [List.map_cons, iterWriteSome,
        writeSome_step w iovcnt (Int.ofNat b) [] hfd hcnt]
      have hb : ¬ (Int.ofNat b) < 0 := not_lt.mpr (Int.ofNat_nonneg b)
      rw [if_neg hb]
      have := ih { w with offs := w.offs + ((Int.ofNat b).toNat : Int) } (by simpa using hfd)
      simp only [Int.toNat_ofNat] at this ⊢
      rw [this]
      congr 1
      simp [add_assoc]
  · intro r rest
    have h := writeSome_step { w with offs := w.offs + (bs.sum : Int) } iovcnt r rest
      (by simpa using hfd) hcnt
    simpa using h

theorem write_cursor_sum_witness :
    iterWriteSome 1 ⟨"f", 3, 0⟩ (List.map Int.ofNat [2, 3]) = some ⟨"f", 3, 5⟩ ∧
    WriteFileImpl.WriteSome ⟨"f", 3, 5⟩ 1 [-9] =
      Res.ok (Except.error 9, ⟨"f", 3, 5⟩) [] [UringOp.writev 3 1 5] := by
  have h := write_cursor_sum 1 ⟨"f", 3, 0⟩ [2, 3] (by decide) (by decide)
  refine ⟨by simpa using h.1, ?_⟩
  have h2 := h.2 (-9) []
  simpa using h2

end Helio

namespace Helio

/-- When every completion the oracle can deliver is non-negative, the
`ReadAll` loop can only return a success (zero completions and short totals
end it with the accumulated byte count, never an error), and it hands back a
suffix of the oracle. -/
theorem ReadAllLoop_ok_of_nonneg : ∀ (oracle : Oracle) (fd offset : Int)
    (len readTotal : Nat) (ops : List UringOp), (∀ r ∈ oracle, 0 ≤ r) →
    ∀ x rest2 ops2, ReadAllLoop fd offset len readTotal oracle ops = Res.ok x rest2 ops2 →
    (∃ n, x = Except.ok n) ∧ ∀ r ∈ rest2, 0 ≤ r := by
  intro oracle
  induction oracle with
  | nil =>
    intro fd offset len readTotal ops hnn x rest2 ops2 h
    exact Res.noConfusion h
  | cons r rest ih =>
    intro fd offset len readTotal ops hnn x rest2 ops2 h
    have hr : 0 ≤ r := hnn r (List.mem_cons_self r rest)
    have hrest : ∀ q ∈ rest, 0 ≤ q := fun q hq => hnn q (List.mem_cons_of_mem r hq)
    simp only [ReadAllLoop] at h
    rw [if_neg (not_lt.mpr hr)] at h
    by_cases h0 : r.toNat = 0
    · rw [if_pos h0] at h
      injection h with hx hr2 hops
      exact ⟨⟨readTotal, hx.symm⟩, hr2 ▸ hrest⟩
    · rw [if_neg h0] at h
      by_cases hlen : readTotal + r.toNat = len
      · rw [if_pos hlen] at h
        injection h with hx hr2 hops
        exact ⟨⟨readTotal + r.toNat, hx.symm⟩, hr2 ▸ hrest⟩
      · rw [if_neg hlen] at h
        exact ih fd (offset + r) len (readTotal + r.toNat) _ hrest x rest2 ops2 h

/-- Version of `ReadAllLoop_ok_of_nonneg` stated for `ReadAll`. -/
theorem ReadAll_ok_of_nonneg (fd offset : Int) (len : Nat) (oracle : Oracle)
    (ops : List UringOp) (hnn : ∀ r ∈ oracle, 0 ≤ r) (x : Except Int Nat)
    (rest2 : Oracle) (ops2 : List UringOp)
    (h : ReadAll fd offset len oracle ops = Res.ok x rest2 ops2) :
    (∃ n, x = Except.ok n) ∧ ∀ r ∈ rest2, 0 ≤ r :=
  ReadAllLoop_ok_of_nonneg oracle fd offset len 0 ops hnn x rest2 ops2 h

/-- When every completion the oracle can deliver is non-negative, the outer
loop of `ReadFileImpl::Read` can only return a success. -/
theorem ReadLoop_ok_of_nonneg : ∀ (fuel : Nat) (oracle : Oracle) (fd offset : Int)
    (entries : List Nat) (readTotal : Nat) (ops : List UringOp),
    (∀ r ∈ oracle, 0 ≤ r) →
    ∀ x rest2 ops2,
      ReadLoop fd offset fuel entries readTotal oracle ops = Res.ok x rest2 ops2 →
      ∃ n, x = Except.ok n := by
  intro fuel
  induction fuel with
  | zero =>
    intro oracle fd offset entries readTotal ops hnn x rest2 ops2 h
    cases oracle <;> exact Res.noConfusion h
  | succ fuel ih =>
    intro oracle fd offset entries readTotal ops hnn x rest2 ops2 h
    cases oracle with
    | nil => exact Res.noConfusion h
    | cons r rest =>
      have hr : 0 ≤ r := hnn r (List.mem_cons_self r rest)
      have hrest : ∀ q ∈ rest, 0 ≤ q := fun q hq => hnn q (List.mem_cons_of_mem r hq)
      simp only [ReadLoop] at h
      split at h
      · -- the primitive's fatal CHECK_GE(fd, 0) fired
        exact Res.noConfusion h
      · split at h
        · -- the primitive's fatal CHECK_GT(iovcnt, 0) fired
          exact Res.noConfusion h
        · rw [if_neg (not_lt.mpr hr)] at h
          by_cases h0 : r.toNat = 0
          · rw [if_pos h0] at h
            injection h with hx hr2 hops
            exact ⟨readTotal, hx.symm⟩
          · rw [if_neg h0] at h
            split at h
            · -- a completion ended inside an entry: the ReadAll retry runs
              split at h
              · exact Res.noConfusion h
              · split at h
                · -- ReadAll returned an error: impossible under a non-negative oracle
                  rename_i heq
                  obtain ⟨⟨n, hn⟩, _⟩ := ReadAll_ok_of_nonneg _ _ _ _ _ hrest _ _ _ heq
                  exact Except.noConfusion hn
                · -- ReadAll succeeded
                  rename_i heq
                  obtain ⟨_, hrest3⟩ := ReadAll_ok_of_nonneg _ _ _ _ _ hrest _ _ _ heq
                  split at h
                  · injection h with hx _ _
                    exact ⟨_, hx.symm⟩
                  · split at h
                    · injection h with hx _ _
                      exact ⟨_, hx.symm⟩
                    · exact ih _ fd offset _ _ _ hrest3 x rest2 ops2 h
                · exact Res.noConfusion h
                · exact Res.noConfusion h
                · exact Res.noConfusion h
            · -- the completion ended exactly on an entry boundary
              split at h
              · injection h with hx _ _
                exact ⟨_, hx.symm⟩
              · exact ih _ fd offset _ _ _ hrest x rest2 ops2 h

/-- C2: end-of-file is not an error.  On a file with a valid (non-negative)
descriptor, under any oracle of non-negative completions (no engine error),
`ReadFileImpl::Read` never returns an error: zero-byte completions and short
`ReadAll` retry results end the operation with the byte count transferred so
far.  In particular an immediate zero completion returns success with 0
bytes. -/
theorem read_eof_not_error (f : ReadFileImpl) (offset : Int) (entries : List Nat)
    (oracle : Oracle) (hfd : 0 ≤ f.fd) (hnn : ∀ r ∈ oracle, 0 ≤ r) (hne : entries ≠ []) :
    Res.isErrorPair (f.Read offset entries oracle) = false ∧
    f.Read offset entries ((0 : Int) :: oracle) =
      Res.ok (Except.ok 0, f) oracle [UringOp.readv f.fd entries.length offset] := by
  have hlen : ¬ entries.length = 0 := by simp [List.length_eq_zero, hne]
  constructor
  · unfold ReadFileImpl.Read
    rw [if_neg hlen]
    cases hres : ReadLoop f.fd offset oracle.length entries 0 oracle [] with
    | ok x rest ops =>
      obtain ⟨n, hn⟩ :=
        ReadLoop_ok_of_nonneg oracle.length oracle f.fd offset entries 0 [] hnn x rest ops hres
      simp [hn, Res.isErrorPair]
    | fatal ops => simp [Res.isErrorPair]
    | hung => simp [Res.isErrorPair]
    | ub => simp [Res.isErrorPair]
  · unfold ReadFileImpl.Read
    rw [if_neg hlen]
    have hstep : ReadLoop f.fd offset ((0 :: oracle : Oracle)).length entries 0
        ((0 : Int) :: oracle) [] =
        Res.ok (Except.ok 0) oracle [UringOp.readv f.fd entries.length offset] := by
      rw [List.length_cons]
      simp [ReadLoop, not_lt.mpr hfd, hlen]
    rw [hstep]

theorem read_eof_not_error_witness :
    Res.isErrorPair (ReadFileImpl.Read ⟨3, 10⟩ 0 [2] [2]) = false ∧
    ReadFileImpl.Read ⟨3, 10⟩ 0 [2] [(0 : Int), 2] =
      Res.ok (Except.ok 0, ⟨3, 10⟩) [2] [UringOp.readv 3 1 0] := by
  simpa using read_eof_not_error ⟨3, 10⟩ 0 [2] [2] (by decide) (by decide) (by decide)

/-- C7: the size reported by a read-only file abstraction obtained from a
successful `OpenRead` is the `st_size` captured by the `fstat` at open time,
and neither `Read` nor `Close` changes what `Size` returns. -/
theorem read_size_invariant (path : String) (sz : Nat) (e : Int) (oracle rest : Oracle)
    (f : ReadFileImpl) (ops : List UringOp)
    (hopen : OpenRead path (Except.ok sz) e oracle = Res.ok (Except.ok f) rest ops) :
    f.Size = sz ∧
    (∀ offset entries orc x f' rest' ops',
      f.Read offset entries orc = Res.ok (x, f') rest' ops' → f'.Size = sz) ∧
    (∀ orc ec f' rest' ops',
      f.Close orc = Res.ok (ec, f') rest' ops' → f'.Size = sz) := by
  have hfs : f.file_size = sz := by
    cases oracle with
    | nil => exact Res.noConfusion hopen
    | cons r rest0 =>
      simp only [OpenRead] at hopen
      split at hopen
      · simp at hopen
      · split at hopen
        · exact Res.noConfusion hopen
        · split at hopen
          · simp at hopen
          · injection hopen with hval _ _
            injection hval with hf
            rw [← hf]
  refine ⟨hfs, ?_, ?_⟩
  · intro offset entries orc x f' rest' ops' hread
    unfold ReadFileImpl.Read at hread
    split at hread
    · injection hread with hval _ _
      injection hval with _ hf'
      rw [ReadFileImpl.Size, ← hf']
      exact hfs
    · split at hread
      · injection hread with hval _ _
        injection hval with _ hf'
        rw [ReadFileImpl.Size, ← hf']
        exact hfs
      · exact Res.noConfusion hread
      · exact Res.noConfusion hread
      · exact Res.noConfusion hread
  · intro orc ec f' rest' ops' hclose
    have hsent := ReadFileImpl_close_sets_sentinel f orc ec f' rest' ops' hclose
    subst hsent
    simpa [ReadFileImpl.Size] using hfs

theorem read_size_invariant_witness : ReadFileImpl.Size ⟨3, 10⟩ = 10 :=
  (read_size_invariant "f" 10 0 [3, 0] [] ⟨3, 10⟩ [UringOp.openAt "f", UringOp.fadvise 3]
    (by decide)).1

end Helio
